import Mathlib

/-!
Verification of the feasibility-weighting and objective-transform primitives of
`botorch/utils/objective.py`.

The shallow embedding models tensors over an arbitrary leading index type `ι`
(the flattened `n_samples x b x q` leading shape) with an outcome axis `Fin m`,
and floating-point numbers as real numbers.  Functions that raise `ValueError`
are embedded with `Except String`.
-/

namespace BotorchObjective

/-- A sample batch: leading index type `ι` (flattened `n_samples x b x q`
dimensions), outcome axis of size `m`, real entries. -/
abbrev Tensor (ι : Type) (m : Nat) := ι → Fin m → ℝ

/-- A constraint callable: maps a sample batch of shape `... x m` to a value
array over the leading shape.  Negative values imply feasibility. -/
abbrev Constraint (ι : Type) (m : Nat) := Tensor ι m → ι → ℝ

/-- The temperature argument `eta : Union[Tensor, float]` of the Python code:
either a scalar float or a 1-dim tensor (one entry per constraint). -/
inductive Eta where
  | scalar (e : ℝ)
  | tensor (es : List ℝ)

/-- The per-constraint temperature list after the scalar-broadcast step
`eta = torch.full((len(constraints),), eta)` of the source: a scalar is
replicated once per constraint, a tensor is taken as is. -/
def etaList : Eta → Nat → List ℝ
  | .scalar e, k => List.replicate k e
  | .tensor es, _ => es

/-- The logistic sigmoid `1 / (1 + exp(-x))`, the mathematical function
computed by `torch.sigmoid` (external library dependency of the source). -/
noncomputable def sigmoid (x : ℝ) : ℝ := 1 / (1 + Real.exp (-x))

/-- Modelled from the spec: `logexpit` of `botorch.utils.safe_math` (not under
`src/`), described by the spec as a numerically stable computation of
`log(sigmoid(x))`. -/
noncomputable def logexpit (x : ℝ) : ℝ := Real.log (sigmoid x)

/-- An un-normalized Cauchy density `1 / (1 + x^2)`, the polynomially decaying
kernel of the fat-tailed sigmoid. -/
noncomputable def cauchy (x : ℝ) : ℝ := 1 / (1 + x ^ 2)

/-- Modelled from the spec: the fat-tailed sigmoid variant underlying
`log_fatmoid` of `botorch.utils.safe_math` (not under `src/`): a smooth step
function with polynomially (not exponentially) decaying tails, built from two
Cauchy lobes glued at zero. -/
noncomputable def fatmoid (x : ℝ) : ℝ :=
  if x < 0 then 2 / 3 * cauchy (x - Real.sqrt 3⁻¹)
  else 1 - 2 / 3 * cauchy (x + Real.sqrt 3⁻¹)

/-- Modelled from the spec: `log_fatmoid` of `botorch.utils.safe_math` (not
under `src/`), the logarithm of the fat-tailed sigmoid variant. -/
noncomputable def log_fatmoid (x : ℝ) : ℝ := Real.log (fatmoid x)

/-- Embedding of `compute_smoothed_feasibility_indicator`.  A scalar `eta` is
broadcast to one value per constraint; the broadcast list must have the same
length as the constraint list and every entry must be strictly positive, else
a `ValueError` is raised.  The accumulator starts at zeros with the leading
shape, each constraint adds `log_sigmoid(-constraint(samples) / eta_i)`, and
the result is the accumulator if `log` else its exponential. -/
noncomputable def compute_smoothed_feasibility_indicator {ι : Type} {m : Nat}
    (constraints : List (Constraint ι m)) (samples : Tensor ι m) (eta : Eta)
    (log : Bool := false) (fat : Bool := false) : Except String (ι → ℝ) :=
  let etaV := etaList eta constraints.length
  if etaV.length ≠ constraints.length then
    .error "Number of provided constraints and number of provided etas do not match."
  else if ¬ (∀ e ∈ etaV, (0 : ℝ) < e) then
    .error "eta must be positive."
  else
    let log_sigmoid := if fat then log_fatmoid else logexpit
    let is_feasible := (constraints.zip etaV).foldl
      (fun acc ce => fun i => acc i + log_sigmoid (-(ce.1 samples i) / ce.2))
      (fun _ => 0)
    .ok (if log then is_feasible else fun i => Real.exp (is_feasible i))

/-- Helper extracting the value array of a non-error result (default 0). -/
noncomputable def evalOk {ι : Type} (r : Except String (ι → ℝ)) (i : ι) : ℝ :=
  match r with
  | .ok f => f i
  | .error _ => 0

/-- Embedding of `compute_feasibility_indicator`: starts from all-true over the
leading shape and conjoins `constraint(samples) < 0` for each constraint. -/
noncomputable def compute_feasibility_indicator {ι : Type} {m : Nat}
    (constraints : Option (List (Constraint ι m))) (samples : Tensor ι m) :
    ι → Bool :=
  let ind : ι → Bool := fun _ => true
  match constraints with
  | none => ind
  | some cs => cs.foldl (fun acc c => fun i => acc i && decide (c samples i < 0)) ind

/-- An objective tensor of the Python code, which has either the leading shape
of the sample batch with the outcome axis dropped (`obj.dim() == samples.dim()
- 1`) or additionally a retained per-outcome trailing axis of size `mo`
(`obj.dim() == samples.dim()`). -/
inductive ObjTensor (ι : Type) (mo : Nat) where
  | flat (f : ι → ℝ)
  | withOutcome (f : ι → Fin mo → ℝ)

/-- Elementwise addition of a scalar to an objective tensor (`obj.add(c)`). -/
def ObjTensor.add {ι : Type} {mo : Nat} : ObjTensor ι mo → ℝ → ObjTensor ι mo
  | .flat f, c => .flat fun i => f i + c
  | .withOutcome f, c => .withOutcome fun i j => f i j + c

/-- Embedding of `apply_constraints_nonnegative_soft`: compute the smoothed
feasibility weight with `log=False`, `fat=False`, unsqueeze a trailing
singleton axis onto the weight when the objective retains the per-outcome axis
(`obj.dim() == samples.dim()`), and multiply it into the objective clamped
below at zero. -/
noncomputable def apply_constraints_nonnegative_soft {ι : Type} {m mo : Nat}
    (obj : ObjTensor ι mo) (constraints : List (Constraint ι m))
    (samples : Tensor ι m) (eta : Eta) : Except String (ObjTensor ι mo) :=
  (compute_smoothed_feasibility_indicator constraints samples eta false false).map
    fun w =>
      match obj with
      | .flat f => .flat fun i => max (f i) 0 * w i
      | .withOutcome f => .withOutcome fun i j => max (f i j) 0 * w i

/-- Embedding of `apply_constraints`: shift the objective up by
`infeasible_cost`, delegate to the non-negative-domain application, and shift
the result back down. -/
noncomputable def apply_constraints {ι : Type} {m mo : Nat}
    (obj : ObjTensor ι mo) (constraints : List (Constraint ι m))
    (samples : Tensor ι m) (infeasible_cost : ℝ)
    (eta : Eta := .scalar (1 / 1000)) : Except String (ObjTensor ι mo) :=
  (apply_constraints_nonnegative_soft (obj.add infeasible_cost) constraints
      samples eta).map
    fun o => o.add (-infeasible_cost)

/-- Embedding of `soft_eval_constraint`: validate `eta > 0` (else a
`ValueError`), then return `sigmoid(-lhs / eta)` elementwise.  The deprecation
warning is a side effect outside the value-level embedding. -/
noncomputable def soft_eval_constraint {ι : Type} (lhs : ι → ℝ)
    (eta : ℝ := 1 / 1000) : Except String (ι → ℝ) :=
  if eta ≤ 0 then .error "eta must be positive."
  else .ok fun i => sigmoid (-(lhs i) / eta)

/-- Embedding of the weighted branch of `get_objective_weights_transform`: the
returned `_objective` callable contracts the outcome axis against the weights
(`torch.einsum("...m, m", [Y, weights])`), i.e. a batched inner product.  The
`X` argument is accepted for interface uniformity and unused. -/
noncomputable def get_objective_weights_transform_weighted {ι : Type} {m : Nat}
    (weights : Fin m → ℝ) (Y : Tensor ι m) (_X : Option Unit := none) : ι → ℝ :=
  fun i => Finset.univ.sum fun j => Y i j * weights j

/-- Embedding of the `weights is None` branch of
`get_objective_weights_transform`: the returned callable is
`lambda Y: Y.squeeze(-1)`, which on a last axis of size 1 removes that axis. -/
noncomputable def get_objective_weights_transform_id {ι : Type}
    (Y : Tensor ι 1) : ι → ℝ :=
  fun i => Y i 0

/-! Basic facts about the sigmoid kernels. -/

lemma one_lt_one_add_exp (x : ℝ) : 1 < 1 + Real.exp x := by
  have := Real.exp_pos x
  linarith

lemma sigmoid_pos (x : ℝ) : 0 < sigmoid x := by
  have h := one_lt_one_add_exp (-x)
  exact div_pos one_pos (by linarith)

lemma sigmoid_le_one (x : ℝ) : sigmoid x ≤ 1 := by
  have h := one_lt_one_add_exp (-x)
  rw [sigmoid, div_le_one (by linarith)]
  linarith

lemma logexpit_nonpos (x : ℝ) : logexpit x ≤ 0 :=
  Real.log_nonpos (le_of_lt (sigmoid_pos x)) (sigmoid_le_one x)

lemma exp_logexpit (x : ℝ) : Real.exp (logexpit x) = sigmoid x :=
  Real.exp_log (sigmoid_pos x)

lemma cauchy_pos (x : ℝ) : 0 < cauchy x :=
  div_pos one_pos (by positivity)

lemma cauchy_le_one (x : ℝ) : cauchy x ≤ 1 := by
  rw [cauchy, div_le_one (by positivity)]
  nlinarith [sq_nonneg x]

lemma fatmoid_pos (x : ℝ) : 0 < fatmoid x := by
  rw [fatmoid]
  split
  · have := cauchy_pos (x - Real.sqrt 3⁻¹)
    positivity
  · have := cauchy_le_one (x + Real.sqrt 3⁻¹)
    nlinarith [cauchy_pos (x + Real.sqrt 3⁻¹)]

lemma fatmoid_le_one (x : ℝ) : fatmoid x ≤ 1 := by
  rw [fatmoid]
  split
  · have := cauchy_le_one (x - Real.sqrt 3⁻¹)
    nlinarith [cauchy_pos (x - Real.sqrt 3⁻¹)]
  · nlinarith [cauchy_pos (x + Real.sqrt 3⁻¹)]

lemma log_fatmoid_nonpos (x : ℝ) : log_fatmoid x ≤ 0 :=
  Real.log_nonpos (le_of_lt (fatmoid_pos x)) (fatmoid_le_one x)

lemma one_sub_sigmoid_le_exp_neg (x : ℝ) : 1 - sigmoid x ≤ Real.exp (-x) := by
  have h := one_lt_one_add_exp (-x)
  have hd : (0 : ℝ) < 1 + Real.exp (-x) := by linarith
  have key : 1 - sigmoid x = Real.exp (-x) / (1 + Real.exp (-x)) := by
    rw [sigmoid]
    field_simp
  rw [key]
  calc Real.exp (-x) / (1 + Real.exp (-x)) ≤ Real.exp (-x) / 1 := by
        apply div_le_div_of_nonneg_left (le_of_lt (Real.exp_pos _)) one_pos
        linarith
    _ = Real.exp (-x) := by ring

/-! Characterization of `compute_smoothed_feasibility_indicator`. -/

lemma foldl_add_apply {ι : Type} {m : Nat} (l : List (Constraint ι m × ℝ))
    (samples : Tensor ι m) (lsig : ℝ → ℝ) (a : ι → ℝ) (i : ι) :
    (l.foldl (fun acc ce => fun j => acc j + lsig (-(ce.1 samples j) / ce.2)) a) i
      = a i + (l.map fun ce => lsig (-(ce.1 samples i) / ce.2)).sum := by
  induction l generalizing a with
  | nil => simp
  | cons hd tl ih =>
    rw [List.foldl_cons, ih, List.map_cons, List.sum_cons]
    ring

lemma compute_error_of_length {ι : Type} {m : Nat}
    (constraints : List (Constraint ι m)) (samples : Tensor ι m) (eta : Eta)
    (log fat : Bool)
    (h : (etaList eta constraints.length).length ≠ constraints.length) :
    compute_smoothed_feasibility_indicator constraints samples eta log fat
      = .error "Number of provided constraints and number of provided etas do not match." := by
  rw [compute_smoothed_feasibility_indicator, if_pos h]

lemma compute_error_of_nonpos {ι : Type} {m : Nat}
    (constraints : List (Constraint ι m)) (samples : Tensor ι m) (eta : Eta)
    (log fat : Bool)
    (hlen : (etaList eta constraints.length).length = constraints.length)
    (h : ¬ (∀ e ∈ etaList eta constraints.length, (0 : ℝ) < e)) :
    compute_smoothed_feasibility_indicator constraints samples eta log fat
      = .error "eta must be positive." := by
  rw [compute_smoothed_feasibility_indicator, if_neg (by simpa using hlen), if_pos h]

lemma compute_ok_of_checks {ι : Type} {m : Nat}
    (constraints : List (Constraint ι m)) (samples : Tensor ι m) (eta : Eta)
    (log fat : Bool)
    (hlen : (etaList eta constraints.length).length = constraints.length)
    (hpos : ∀ e ∈ etaList eta constraints.length, (0 : ℝ) < e) :
    compute_smoothed_feasibility_indicator constraints samples eta log fat
      = .ok (if log then
              (fun i => ((constraints.zip (etaList eta constraints.length)).map
                fun ce => (if fat then log_fatmoid else logexpit)
                  (-(ce.1 samples i) / ce.2)).sum)
            else
              fun i => Real.exp (((constraints.zip (etaList eta constraints.length)).map
                fun ce => (if fat then log_fatmoid else logexpit)
                  (-(ce.1 samples i) / ce.2)).sum)) := by
  rw [compute_smoothed_feasibility_indicator, if_neg (by simpa using hlen),
    if_neg (not_not_intro hpos)]
  cases log with
  | false =>
    simp only [Bool.false_eq_true, if_false]
    refine congrArg Except.ok ?_
    funext i
    rw [foldl_add_apply]
    simp
  | true =>
    simp only [if_true]
    refine congrArg Except.ok ?_
    funext i
    rw [foldl_add_apply]
    simp

lemma compute_scalar_eq_tensor_replicate {ι : Type} {m : Nat}
    (constraints : List (Constraint ι m)) (samples : Tensor ι m) (e : ℝ)
    (log fat : Bool) :
    compute_smoothed_feasibility_indicator constraints samples (.scalar e) log fat
      = compute_smoothed_feasibility_indicator constraints samples
          (.tensor (List.replicate constraints.length e)) log fat := rfl

lemma list_sum_nonpos {l : List ℝ} (h : ∀ x ∈ l, x ≤ 0) : l.sum ≤ 0 := by
  induction l with
  | nil => simp
  | cons hd tl ih =>
    rw [List.sum_cons]
    have h1 := h hd (List.mem_cons_self hd tl)
    have h2 := ih fun x hx => h x (List.mem_cons_of_mem hd hx)
    linarith

lemma list_prod_map_exp (l : List ℝ) :
    (l.map Real.exp).prod = Real.exp l.sum := by
  induction l with
  | nil => simp
  | cons hd tl ih =>
    rw [List.map_cons, List.prod_cons, List.sum_cons, Real.exp_add, ih]

lemma compute_single_ok {ι : Type} {m : Nat} (c : Constraint ι m)
    (samples : Tensor ι m) (e : ℝ) (he : 0 < e) :
    compute_smoothed_feasibility_indicator [c] samples (.scalar e) false false
      = .ok fun i => Real.exp (logexpit (-(c samples i) / e)) := by
  rw [compute_scalar_eq_tensor_replicate,
    compute_ok_of_checks _ _ _ _ _ (by simp [etaList]) (by simpa [etaList] using he)]
  simp [etaList]

lemma lsig_nonpos (fat : Bool) (x : ℝ) :
    (if fat then log_fatmoid else logexpit) x ≤ 0 := by
  cases fat
  · simpa using logexpit_nonpos x
  · simpa using log_fatmoid_nonpos x

/-- Concrete singleton-index sample batch used by witnesses. -/
noncomputable def sampleZero : Tensor Unit 1 := fun _ _ => 0

/-- Concrete always-feasible constraint (constant -1) used by witnesses. -/
noncomputable def constNeg1 : Constraint Unit 1 := fun _ _ => -1

/-- Concrete always-infeasible constraint (constant 1) used by witnesses. -/
noncomputable def constPos1 : Constraint Unit 1 := fun _ _ => 1

/-! Claim theorems. -/

/-- C2: `compute_smoothed_feasibility_indicator` returns the count-mismatch
validation error whenever a 1-D temperature tensor's length differs from the
number of constraints, and the positivity validation error whenever some
temperature is not strictly positive; a scalar temperature is broadcast to one
value per constraint and then subject to the same positivity check.  All three
parts hold for every constraint list and sample batch, so no constraint value
can influence the failure (the error is raised before evaluating any
constraint). -/
theorem smoothed_indicator_validation_errors {ι : Type} {m : Nat}
    (cs : List (Constraint ι m)) (samples : Tensor ι m) (log fat : Bool) :
    (∀ es : List ℝ, es.length ≠ cs.length →
      compute_smoothed_feasibility_indicator cs samples (.tensor es) log fat
        = .error "Number of provided constraints and number of provided etas do not match.")
    ∧ (∀ es : List ℝ, es.length = cs.length → (∃ e ∈ es, e ≤ 0) →
      compute_smoothed_feasibility_indicator cs samples (.tensor es) log fat
        = .error "eta must be positive.")
    ∧ (∀ e : ℝ, e ≤ 0 → cs ≠ [] →
      compute_smoothed_feasibility_indicator cs samples (.scalar e) log fat
        = .error "eta must be positive.") := by
  refine ⟨fun es hes => ?_, fun es hes ⟨e, hmem, hle⟩ => ?_, fun e hle hne => ?_⟩
  · exact compute_error_of_length _ _ _ _ _ hes
  · refine compute_error_of_nonpos _ _ _ _ _ hes fun hall => ?_
    exact absurd (hall e hmem) (not_lt.mpr hle)
  · have hlen : (etaList (.scalar e) cs.length).length = cs.length := by
      simp [etaList]
    refine compute_error_of_nonpos _ _ _ _ _ hlen fun hall => ?_
    have hmem : e ∈ etaList (.scalar e) cs.length := by
      simp only [etaList, List.mem_replicate]
      exact ⟨fun h0 => hne (List.length_eq_zero.mp h0), trivial⟩
    exact absurd (hall e hmem) (not_lt.mpr hle)

/-- Witness for C2 at two constraints: a 3-element temperature tensor yields
the count-mismatch error, a temperature tensor containing -1 and a scalar
temperature 0 yield the positivity error. -/
theorem smoothed_indicator_validation_errors_witness :
    compute_smoothed_feasibility_indicator [constNeg1, constPos1] sampleZero
        (.tensor [1, 2, 3]) false false
      = .error "Number of provided constraints and number of provided etas do not match."
    ∧ compute_smoothed_feasibility_indicator [constNeg1, constPos1] sampleZero
        (.tensor [1, -1]) false false
      = .error "eta must be positive."
    ∧ compute_smoothed_feasibility_indicator [constNeg1, constPos1] sampleZero
        (.scalar 0) false false
      = .error "eta must be positive." := by
  obtain ⟨h1, h2, h3⟩ :=
    smoothed_indicator_validation_errors [constNeg1, constPos1] sampleZero false false
  exact ⟨h1 [1, 2, 3] (by simp), h2 [1, -1] (by simp) ⟨-1, by simp, by norm_num⟩,
    h3 0 le_rfl (by simp)⟩

/-- C3: whenever `compute_smoothed_feasibility_indicator` returns a value (no
validation error), every element of the non-log output lies in [0, 1] and
every element of the `log=True` output is at most 0, for any constraint list,
sample batch, temperature, and tail behavior. -/
theorem smoothed_indicator_bounds {ι : Type} {m : Nat}
    (cs : List (Constraint ι m)) (samples : Tensor ι m) (eta : Eta)
    (fat : Bool) (f g : ι → ℝ)
    (hf : compute_smoothed_feasibility_indicator cs samples eta false fat = .ok f)
    (hg : compute_smoothed_feasibility_indicator cs samples eta true fat = .ok g) :
    ∀ i, (0 ≤ f i ∧ f i ≤ 1) ∧ g i ≤ 0 := by
  by_cases hlen : (etaList eta cs.length).length = cs.length
  · by_cases hpos : ∀ e ∈ etaList eta cs.length, (0 : ℝ) < e
    · rw [compute_ok_of_checks _ _ _ _ _ hlen hpos] at hf hg
      simp only [Except.ok.injEq, if_true, Bool.false_eq_true, if_false] at hf hg
      intro i
      have hsum : ((cs.zip (etaList eta cs.length)).map
          fun ce => (if fat then log_fatmoid else logexpit)
            (-(ce.1 samples i) / ce.2)).sum ≤ 0 := by
        refine list_sum_nonpos fun x hx => ?_
        obtain ⟨ce, _, rfl⟩ := List.mem_map.mp hx
        exact lsig_nonpos fat _
      refine ⟨⟨?_, ?_⟩, ?_⟩
      · rw [← hf]
        exact le_of_lt (Real.exp_pos _)
      · rw [← hf]
        exact Real.exp_le_one_iff.mpr hsum
      · rw [← hg]
        exact hsum
    · rw [compute_error_of_nonpos _ _ _ _ _ hlen hpos] at hf
      exact absurd hf (by simp)
  · rw [compute_error_of_length _ _ _ _ _ hlen] at hf
    exact absurd hf (by simp)

/-- Witness for C3 at the empty constraint list with scalar temperature 1: the
non-log output value is exp 0 and lies in [0, 1], the log output value is 0. -/
theorem smoothed_indicator_bounds_witness :
    compute_smoothed_feasibility_indicator ([] : List (Constraint Unit 1))
        sampleZero (.scalar 1) false false = .ok (fun _ => Real.exp 0)
    ∧ compute_smoothed_feasibility_indicator ([] : List (Constraint Unit 1))
        sampleZero (.scalar 1) true false = .ok (fun _ => (0 : ℝ))
    ∧ ((0 ≤ Real.exp 0 ∧ Real.exp 0 ≤ 1) ∧ (0 : ℝ) ≤ 0) := by
  have hf : compute_smoothed_feasibility_indicator ([] : List (Constraint Unit 1))
      sampleZero (.scalar 1) false false = .ok fun _ => Real.exp 0 := by
    rw [compute_ok_of_checks _ _ _ _ _ (by simp [etaList]) (by simp [etaList])]
    simp
  have hg : compute_smoothed_feasibility_indicator ([] : List (Constraint Unit 1))
      sampleZero (.scalar 1) true false = .ok fun _ => (0 : ℝ) := by
    rw [compute_ok_of_checks _ _ _ _ _ (by simp [etaList]) (by simp [etaList])]
    simp
  exact ⟨hf, hg, smoothed_indicator_bounds [] sampleZero (.scalar 1) false _ _ hf hg ()⟩

/-- C10: with an empty constraint list and any scalar temperature (no
positivity requirement), `compute_smoothed_feasibility_indicator` raises no
error and returns the all-zeros array when `log=True` and the all-ones array
when `log=False`. -/
theorem smoothed_indicator_empty_constraints {ι : Type} {m : Nat}
    (samples : Tensor ι m) (e : ℝ) :
    compute_smoothed_feasibility_indicator ([] : List (Constraint ι m))
        samples (.scalar e) true false = .ok (fun _ => 0)
    ∧ compute_smoothed_feasibility_indicator ([] : List (Constraint ι m))
        samples (.scalar e) false false = .ok (fun _ => 1) := by
  constructor
  · rw [compute_ok_of_checks _ _ _ _ _ (by simp [etaList]) (by simp [etaList])]
    simp
  · rw [compute_ok_of_checks _ _ _ _ _ (by simp [etaList]) (by simp [etaList])]
    refine congrArg Except.ok ?_
    funext i
    simp

/-- C1: for a non-empty list of constraints with matching strictly positive
per-constraint temperatures, the non-log smoothed feasibility indicator equals
the elementwise product of the single-constraint smoothed indicators evaluated
with the same respective temperatures, and the `log=True` result is the sum
over constraints of `logexpit(-constraint(samples)/eta_i)` starting from a
zero accumulator. -/
theorem smoothed_indicator_multiplicative {ι : Type} {m : Nat}
    (cs : List (Constraint ι m)) (samples : Tensor ι m) (etas : List ℝ)
    (_hne : cs ≠ []) (hlen : etas.length = cs.length)
    (hpos : ∀ e ∈ etas, 0 < e) :
    compute_smoothed_feasibility_indicator cs samples (.tensor etas) false false
      = .ok (fun i => ((cs.zip etas).map fun ce =>
          evalOk (compute_smoothed_feasibility_indicator [ce.1] samples
            (.scalar ce.2) false false) i).prod)
    ∧ compute_smoothed_feasibility_indicator cs samples (.tensor etas) true false
      = .ok (fun i => ((cs.zip etas).map fun ce =>
          logexpit (-(ce.1 samples i) / ce.2)).sum) := by
  have hlen' : (etaList (.tensor etas) cs.length).length = cs.length := hlen
  have hpos' : ∀ e ∈ etaList (.tensor etas) cs.length, (0 : ℝ) < e := hpos
  constructor
  · rw [compute_ok_of_checks _ _ _ _ _ hlen' hpos']
    simp only [Bool.false_eq_true, if_false, etaList]
    refine congrArg Except.ok ?_
    funext i
    have hmap : (cs.zip etas).map (fun ce =>
          evalOk (compute_smoothed_feasibility_indicator [ce.1] samples
            (.scalar ce.2) false false) i)
        = (cs.zip etas).map (fun ce =>
            Real.exp (logexpit (-(ce.1 samples i) / ce.2))) := by
      refine List.map_congr_left fun ce hce => ?_
      rw [compute_single_ok ce.1 samples ce.2 (hpos ce.2 (List.of_mem_zip hce).2)]
      rfl
    rw [hmap, ← list_prod_map_exp, List.map_map]
    rfl
  · rw [compute_ok_of_checks _ _ _ _ _ hlen' hpos']
    simp [etaList]

/-- Witness for C1 at two constraints (constants -1 and 1) with temperatures
[1, 2] on a singleton sample batch. -/
theorem smoothed_indicator_multiplicative_witness :
    ([constNeg1, constPos1] ≠ ([] : List (Constraint Unit 1))
      ∧ [(1 : ℝ), 2].length = [constNeg1, constPos1].length
      ∧ ∀ e ∈ [(1 : ℝ), 2], 0 < e)
    ∧ (compute_smoothed_feasibility_indicator [constNeg1, constPos1] sampleZero
          (.tensor [1, 2]) false false
        = .ok (fun i => (([constNeg1, constPos1].zip [(1 : ℝ), 2]).map fun ce =>
            evalOk (compute_smoothed_feasibility_indicator [ce.1] sampleZero
              (.scalar ce.2) false false) i).prod)
      ∧ compute_smoothed_feasibility_indicator [constNeg1, constPos1] sampleZero
          (.tensor [1, 2]) true false
        = .ok (fun i => (([constNeg1, constPos1].zip [(1 : ℝ), 2]).map fun ce =>
            logexpit (-(ce.1 sampleZero i) / ce.2)).sum)) :=
  ⟨⟨by simp, by simp, by norm_num⟩,
    smoothed_indicator_multiplicative _ _ _ (by simp) (by simp) (by norm_num)⟩

/-- C4: `apply_constraints_nonnegative_soft` returns the elementwise product
of the objective clamped below at zero with the smoothed feasibility weight
computed with `log=False` and `fat=False`; when the objective retains the
per-outcome trailing axis (`obj.dim() == samples.dim()`), a trailing singleton
axis is inserted into the weight so it broadcasts over outcomes, and the
result has the shape (variant) of the input objective. -/
theorem apply_nonnegative_soft_spec {ι : Type} {m mo : Nat}
    (cs : List (Constraint ι m)) (samples : Tensor ι m) (eta : Eta)
    (f : ι → ℝ) (g : ι → Fin mo → ℝ) :
    apply_constraints_nonnegative_soft (ObjTensor.flat f : ObjTensor ι mo)
        cs samples eta
      = (compute_smoothed_feasibility_indicator cs samples eta false false).map
          (fun w => (ObjTensor.flat fun i => max (f i) 0 * w i : ObjTensor ι mo))
    ∧ apply_constraints_nonnegative_soft
          (ObjTensor.withOutcome g : ObjTensor ι mo) cs samples eta
      = (compute_smoothed_feasibility_indicator cs samples eta false false).map
          (fun w => ObjTensor.withOutcome fun i j => max (g i j) 0 * w i) :=
  ⟨rfl, rfl⟩

/-- C5: `apply_constraints` shifts the objective up by `infeasible_cost`,
delegates to the non-negative-domain application, and shifts the result back
down by the same amount. -/
theorem apply_constraints_shift_spec {ι : Type} {m mo : Nat}
    (obj : ObjTensor ι mo) (cs : List (Constraint ι m)) (samples : Tensor ι m)
    (M : ℝ) (eta : Eta) :
    apply_constraints obj cs samples M eta
      = (apply_constraints_nonnegative_soft (obj.add M) cs samples eta).map
          (fun o => o.add (-M)) := rfl

/-- C7: with a weight vector `w` the returned callable computes the batched
inner product `Z i = sum_m Y i m * w m` over the outcome axis (in particular,
w = [0.75, 0.25] applied to the values [2.0, 4.0] yields 2.5); without a
weight vector the returned callable removes the last axis of size one, so a
`[b,q,1]` input yields the `[b,q]` array with the last axis squeezed,
exactly. -/
theorem objective_weights_transform_spec {ι : Type} {m : Nat}
    (w : Fin m → ℝ) (Y : Tensor ι m) (Z : Tensor ι 1) :
    (∀ i, get_objective_weights_transform_weighted w Y none i
        = Finset.univ.sum fun j => Y i j * w j)
    ∧ get_objective_weights_transform_weighted ![(0.75 : ℝ), 0.25]
        (fun _ : Unit => ![(2.0 : ℝ), 4.0]) none () = 2.5
    ∧ (∀ i, get_objective_weights_transform_id Z i = Z i 0) := by
  refine ⟨fun i => rfl, ?_, fun i => rfl⟩
  rw [get_objective_weights_transform_weighted]
  rw [Fin.sum_univ_two]
  norm_num

lemma foldl_and_apply {ι : Type} {m : Nat} (cs : List (Constraint ι m))
    (samples : Tensor ι m) (b : ι → Bool) (i : ι) :
    (cs.foldl (fun acc c => fun i => acc i && decide (c samples i < 0)) b) i
      = (b i && cs.all fun c => decide (c samples i < 0)) := by
  induction cs generalizing b with
  | nil => simp
  | cons hd tl ih =>
    rw [List.foldl_cons, ih, List.all_cons]
    simp [Bool.and_assoc]

/-- C8: `compute_feasibility_indicator` is true at an index exactly when every
constraint in the list evaluates negative there (the conjunction of the
per-constraint hard tests), and is all-true when the constraint list is
absent (and hence also when it is empty). -/
theorem feasibility_indicator_spec {ι : Type} {m : Nat}
    (cs : List (Constraint ι m)) (samples : Tensor ι m) :
    (∀ i, compute_feasibility_indicator none samples i = true)
    ∧ (∀ i, compute_feasibility_indicator (some cs) samples i = true
        ↔ ∀ c ∈ cs, c samples i < 0) := by
  refine ⟨fun i => rfl, fun i => ?_⟩
  show (cs.foldl (fun acc c => fun i => acc i && decide (c samples i < 0))
      (fun _ => true)) i = true ↔ _
  rw [foldl_and_apply]
  simp [List.all_eq_true]

/-- Witness for C8 at the always-feasible constant constraint. -/
theorem feasibility_indicator_spec_witness :
    compute_feasibility_indicator (some [constNeg1]) sampleZero () = true
      ↔ ∀ c ∈ [constNeg1], c sampleZero () < 0 :=
  (feasibility_indicator_spec [constNeg1] sampleZero).2 ()

/-- C6: with the single fully-feasible constraint constantly -1, any
infeasible cost M, any strictly positive temperature, and an objective whose
shift by M is non-negative, `apply_constraints` returns (without error) a
value whose distance from the original objective is at most
`(obj + M) * exp(-1/eta)`: the feasibility weight saturates to 1 as the
temperature decreases, so the result is within floating tolerance of the
original objective. -/
theorem apply_constraints_fully_feasible {ι : Type} {m mo : Nat}
    (f : ι → ℝ) (samples : Tensor ι m) (M η : ℝ)
    (hη : 0 < η) (hshift : ∀ i, 0 ≤ f i + M) :
    ∃ g : ι → ℝ,
      apply_constraints (ObjTensor.flat f : ObjTensor ι mo)
          ([fun _ _ => (-1 : ℝ)] : List (Constraint ι m)) samples M (.scalar η)
        = .ok (.flat g)
      ∧ ∀ i, |g i - f i| ≤ (f i + M) * Real.exp (-(1 / η)) := by
  have hw := compute_single_ok (fun _ _ => (-1 : ℝ) : Constraint ι m) samples η hη
  refine ⟨fun i => max (f i + M) 0 * Real.exp (logexpit (-(-1 : ℝ) / η)) + -M,
    ?_, ?_⟩
  · unfold apply_constraints apply_constraints_nonnegative_soft
    rw [hw]
    rfl
  · intro i
    have h1 : max (f i + M) 0 * Real.exp (logexpit (-(-1 : ℝ) / η)) + -M - f i
        = (f i + M) * (sigmoid (1 / η) - 1) := by
      rw [show -(-1 : ℝ) / η = 1 / η by norm_num, exp_logexpit,
        max_eq_left (hshift i)]
      ring
    rw [h1]
    have hb := one_sub_sigmoid_le_exp_neg (1 / η)
    have hσ := sigmoid_le_one (1 / η)
    have hs := hshift i
    have h2 : |(f i + M) * (sigmoid (1 / η) - 1)|
        = (f i + M) * (1 - sigmoid (1 / η)) := by
      rw [abs_of_nonpos (by nlinarith)]
      ring
    rw [h2]
    exact mul_le_mul_of_nonneg_left hb hs

/-- Witness for C6 at the zero objective with M = 0 and temperature 1. -/
theorem apply_constraints_fully_feasible_witness :
    ((0 : ℝ) < 1 ∧ ∀ i : Unit, (0 : ℝ) ≤ (fun _ : Unit => (0 : ℝ)) i + 0)
    ∧ ∃ g : Unit → ℝ,
        apply_constraints (ObjTensor.flat (fun _ : Unit => (0 : ℝ)) : ObjTensor Unit 1)
            ([fun _ _ => (-1 : ℝ)] : List (Constraint Unit 1)) sampleZero 0 (.scalar 1)
          = .ok (.flat g)
        ∧ ∀ i, |g i - (fun _ : Unit => (0 : ℝ)) i|
            ≤ ((fun _ : Unit => (0 : ℝ)) i + 0) * Real.exp (-(1 / 1)) :=
  ⟨⟨by norm_num, fun _ => by norm_num⟩,
    apply_constraints_fully_feasible _ sampleZero 0 1 (by norm_num)
      (fun _ => by norm_num)⟩

/-- C9 counterexample: at `lhs = -1` (elementwise) with temperature 1,
`soft_eval_constraint` does not equal one minus the single-constraint smoothed
indicator with constraint `c(x) = lhs`; the two sides are `sigmoid 1` and
`1 - sigmoid 1`, which differ. -/
theorem soft_eval_legacy_one_minus_counterexample :
    ¬ (evalOk (soft_eval_constraint (fun _ : Unit => (-1 : ℝ)) 1) ()
        = 1 - evalOk (compute_smoothed_feasibility_indicator [constNeg1]
            sampleZero (.scalar 1) false false) ()) := by
  intro heq
  have h1 : soft_eval_constraint (fun _ : Unit => (-1 : ℝ)) 1
      = .ok fun _ => sigmoid (-(-1 : ℝ) / 1) := by
    rw [soft_eval_constraint, if_neg (by norm_num)]
  have h2 := compute_single_ok constNeg1 sampleZero 1 one_pos
  have e1 : evalOk (soft_eval_constraint (fun _ : Unit => (-1 : ℝ)) 1) ()
      = sigmoid 1 := by
    rw [h1]
    show sigmoid (-(-1 : ℝ) / 1) = sigmoid 1
    norm_num
  have e2 : evalOk (compute_smoothed_feasibility_indicator [constNeg1]
      sampleZero (.scalar 1) false false) () = sigmoid 1 := by
    rw [h2]
    show Real.exp (logexpit (-(constNeg1 sampleZero ()) / 1)) = sigmoid 1
    rw [show -(constNeg1 sampleZero ()) / 1 = (1 : ℝ) by
      simp [constNeg1], exp_logexpit]
  rw [e1, e2] at heq
  rw [sigmoid] at heq
  have hd : Real.exp (-1) < 1 := Real.exp_lt_one_iff.mpr (by norm_num)
  have hp : (0 : ℝ) < 1 + Real.exp (-1) := by positivity
  have hcancel : (1 / (1 + Real.exp (-1))) * (1 + Real.exp (-1)) = 1 := by
    field_simp
  have hs : 1 / (1 + Real.exp (-1)) = 1 / 2 := by linarith [heq]
  rw [hs] at hcancel
  linarith [hcancel, hd]

/-- C9 amended: `soft_eval_constraint(lhs, eta)` equals the single-constraint
smoothed indicator itself (not one minus it) with constraint `c(x) = lhs`,
same temperature, non-fat, non-log — including the error on a non-positive
temperature — and for positive temperature it returns
`sigmoid(-lhs / eta)` elementwise. -/
theorem soft_eval_legacy_equiv {ι : Type} {m : Nat}
    (lhs : ι → ℝ) (η : ℝ) (samples : Tensor ι m) :
    soft_eval_constraint lhs η
      = compute_smoothed_feasibility_indicator
          ([fun _ i => lhs i] : List (Constraint ι m)) samples (.scalar η)
          false false
    ∧ (0 < η → soft_eval_constraint lhs η = .ok fun i => sigmoid (-(lhs i) / η)) := by
  constructor
  · by_cases hη : η ≤ 0
    · rw [soft_eval_constraint, if_pos hη,
        compute_error_of_nonpos _ _ _ _ _ (by simp [etaList]) fun hall =>
          absurd (hall η (by simp [etaList])) (not_lt.mpr hη)]
    · push_neg at hη
      rw [soft_eval_constraint, if_neg (not_le.mpr hη), compute_single_ok _ _ _ hη]
      refine congrArg Except.ok ?_
      funext i
      rw [exp_logexpit]
  · intro hη
    rw [soft_eval_constraint, if_neg (not_le.mpr hη)]

/-- Witness for C9 amended at `lhs = -1` (elementwise) with temperature 1. -/
theorem soft_eval_legacy_equiv_witness :
    (soft_eval_constraint (fun _ : Unit => (-1 : ℝ)) 1
      = compute_smoothed_feasibility_indicator
          ([fun _ _ => (-1 : ℝ)] : List (Constraint Unit 1)) sampleZero
          (.scalar 1) false false)
    ∧ ((0 : ℝ) < 1
      ∧ soft_eval_constraint (fun _ : Unit => (-1 : ℝ)) 1
          = .ok fun _ : Unit => sigmoid (-(-1 : ℝ) / 1)) :=
  ⟨(soft_eval_legacy_equiv (fun _ : Unit => (-1 : ℝ)) 1 sampleZero).1,
    by norm_num,
    (soft_eval_legacy_equiv (fun _ : Unit => (-1 : ℝ)) 1 sampleZero).2 (by norm_num)⟩

end BotorchObjective
